import Mathlib

/-!
Verification of the Istio operator's reconciliation core: cluster-topology
discovery (`internal/clusterconfig/clusterconfig.go`), the provider-dependent
resource set and the fail-fast resource reconciler (`istioresources`
package), the override merge, and the two-phase sidecar-restart orchestration.

Kubernetes API calls are embedded by passing the call's outcome
(`Except K8sError (List Node)` for a node listing) as an explicit argument;
`resource.Quantity` values are embedded as integers (CPU in millicores,
memory in bytes).
-/

namespace IstioOperator

/-- An error returned by the Kubernetes client (transport/permission). -/
structure K8sError where
  msg : String
deriving DecidableEq

/-- The fields of a `corev1.Node` read by `clusterconfig`:
`Status.Capacity.Cpu()` (millicores; `none` models a nil pointer),
`Status.Capacity.Memory()` (bytes), `Status.NodeInfo.KubeletVersion`,
`Status.NodeInfo.OSImage` and `Spec.ProviderID`. -/
structure Node where
  cpuMilli : Option Int
  memBytes : Option Int
  kubeletVersion : String
  osImage : String
  providerID : String
deriving DecidableEq

/-- `ClusterSize` iota from clusterconfig.go. -/
inductive ClusterSize where
  | UnknownSize
  | Evaluation
  | Production
deriving DecidableEq

/-- `ProductionClusterCpuThreshold int64 = 5` (whole cores). -/
def ProductionClusterCpuThreshold : Int := 5

/-- `ProductionClusterMemoryThresholdGi int64 = 10`; the code scales it with
`resource.Giga`, i.e. the threshold quantity is `10 * 10^9` bytes. -/
def ProductionClusterMemoryThresholdGi : Int := 10

/-- Sum of `node.Status.Capacity.Cpu()` over the node list, in millicores;
a nil capacity pointer is skipped, as in the source's nil check. -/
def totalCpuMilli (nodes : List Node) : Int :=
  nodes.foldl (fun acc n => acc + n.cpuMilli.getD 0) 0

/-- Sum of `node.Status.Capacity.Memory()` over the node list, in bytes. -/
def totalMemBytes (nodes : List Node) : Int :=
  nodes.foldl (fun acc n => acc + n.memBytes.getD 0) 0

/-- `EvaluateClusterSize`: on a listing error returns `(UnknownSize, err)`;
otherwise compares the capacity sums against `5` cores
(`resource.NewQuantity(5, DecimalSI)`) and `10 * 10^9` bytes
(`resource.NewScaledQuantity(10, resource.Giga)`), returning `Evaluation`
when either sum is strictly below its threshold, else `Production`. -/
def EvaluateClusterSize (listResult : Except K8sError (List Node)) :
    ClusterSize × Option K8sError :=
  match listResult with
  | .error e => (.UnknownSize, some e)
  | .ok nodes =>
    if totalCpuMilli nodes < ProductionClusterCpuThreshold * 1000 ∨
        totalMemBytes nodes < ProductionClusterMemoryThresholdGi * 1000000000 then
      (.Evaluation, none)
    else
      (.Production, none)

/-- `GetClusterProvider`: on a listing error propagates the error; on an
empty node list returns `"other"`; otherwise inspects the first node's
`Spec.ProviderID` for the `"aws://"` scheme. -/
def GetClusterProvider (listResult : Except K8sError (List Node)) :
    Except K8sError String :=
  match listResult with
  | .error e => .error e
  | .ok [] => .ok "other"
  | .ok (n :: _) =>
    if "aws://".isPrefixOf n.providerID then .ok "aws" else .ok "other"

/-- Claim C7: a successful node listing with zero items makes
`GetClusterProvider` return provider `"other"` with no error. -/
theorem getClusterProvider_empty_list :
    GetClusterProvider (.ok []) = .ok "other" := rfl

/-- Claim C10: `EvaluateClusterSize` yields `UnknownSize` exactly when the
node-listing call errored; every successful listing yields `Evaluation` or
`Production`, never `UnknownSize`. -/
theorem evaluateClusterSize_unknown_iff_error :
    (∀ listResult : Except K8sError (List Node),
      (EvaluateClusterSize listResult).1 = .UnknownSize ↔
        ∃ e, listResult = .error e) ∧
    (∀ nodes : List Node,
      (EvaluateClusterSize (.ok nodes)).1 = .Evaluation ∨
        (EvaluateClusterSize (.ok nodes)).1 = .Production) := by
  constructor
  · intro listResult
    constructor
    · intro h
      cases listResult with
      | error e => exact ⟨e, rfl⟩
      | ok nodes =>
        simp only [EvaluateClusterSize] at h
        split at h <;> simp_all
    · rintro ⟨e, rfl⟩
      rfl
  · intro nodes
    simp only [EvaluateClusterSize]
    split
    · left; rfl
    · right; rfl

/-- Claim C4, counterexample: one node with exactly 5 cores and
`10^10` bytes (10 decimal gigabytes) of memory. Its memory total is
strictly below the 10Gi (`10 * 2^30` bytes) threshold the claim states,
yet the code classifies the cluster as `Production`, because the source's
threshold is `resource.NewScaledQuantity(10, resource.Giga)` = `10 * 10^9`
bytes, not 10Gi. -/
theorem evaluateClusterSize_not_gi_threshold :
    EvaluateClusterSize (.ok [⟨some 5000, some 10000000000, "", "", ""⟩]) =
        (.Production, none) ∧
    totalCpuMilli [⟨some 5000, some 10000000000, "", "", ""⟩] = 5 * 1000 ∧
    totalMemBytes [⟨some 5000, some 10000000000, "", "", ""⟩] = 10000000000 ∧
    (10000000000 : Int) < 10 * 1073741824 := by
  refine ⟨?_, by decide, by decide, by decide⟩
  simp only [EvaluateClusterSize]
  norm_num [totalCpuMilli, totalMemBytes, ProductionClusterCpuThreshold,
    ProductionClusterMemoryThresholdGi]

/-- Claim C4, amended: `EvaluateClusterSize` sums each node's capacity CPU
and memory over the whole node list and returns `Evaluation` exactly when
the CPU total is strictly below 5 whole cores or the memory total is
strictly below `10 * 10^9` bytes (10 decimal gigabytes, the `resource.Giga`
scale), and `Production` otherwise; an empty node list yields `Evaluation`,
and three nodes of 2 CPU / 4Gi each yield `Production`. -/
theorem evaluateClusterSize_thresholds :
    (∀ nodes : List Node,
      (EvaluateClusterSize (.ok nodes)).1 = .Evaluation ↔
        (totalCpuMilli nodes < 5 * 1000 ∨ totalMemBytes nodes < 10 * 1000000000)) ∧
    EvaluateClusterSize (.ok []) = (.Evaluation, none) ∧
    EvaluateClusterSize
        (.ok (List.replicate 3 ⟨some 2000, some 4294967296, "", "", ""⟩)) =
      (.Production, none) := by
  refine ⟨?_, by decide, ?_⟩
  · intro nodes
    simp only [EvaluateClusterSize, ProductionClusterCpuThreshold,
      ProductionClusterMemoryThresholdGi]
    split <;> rename_i h
    · simpa using h
    · simpa using h
  · simp only [EvaluateClusterSize]
    norm_num [List.replicate, totalCpuMilli, totalMemBytes,
      ProductionClusterCpuThreshold, ProductionClusterMemoryThresholdGi]

/-- `ClusterFlavour` iota from clusterconfig.go. -/
inductive ClusterFlavour where
  | Unknown
  | k3d
  | GKE
  | Gardener
deriving DecidableEq

/-- Splits a leading run of decimal digits off a character list. -/
def takeDigits : List Char → List Char × List Char
  | [] => ([], [])
  | c :: t =>
    if c.isDigit then
      let (d, r) := takeDigits t
      (c :: d, r)
    else ([], c :: t)

/-- Consumes `\d+` (at least one digit) and returns the remainder, or fails.
Maximal munch is exact here because every following literal in the patterns
below is a non-digit. -/
def matchNum (l : List Char) : Option (List Char) :=
  let (d, r) := takeDigits l
  if d.isEmpty then none else some r

/-- The anchored pattern `^v\d+\.\d+\.\d+-gke\.\d+$` compiled by
`DiscoverClusterFlavour` and applied to `KubeletVersion`. -/
def matchGKE (s : String) : Bool :=
  match s.data with
  | 'v' :: r0 =>
    match matchNum r0 with
    | some ('.' :: r1) =>
      match matchNum r1 with
      | some ('.' :: r2) =>
        match matchNum r2 with
        | some ('-' :: 'g' :: 'k' :: 'e' :: '.' :: r3) =>
          match matchNum r3 with
          | some [] => true
          | _ => false
        | _ => false
      | _ => false
    | _ => false
  | _ => false

/-- The anchored pattern `^v\d+\.\d+\.\d+\+k3s\d+$` applied to
`KubeletVersion`. -/
def matchK3d (s : String) : Bool :=
  match s.data with
  | 'v' :: r0 =>
    match matchNum r0 with
    | some ('.' :: r1) =>
      match matchNum r1 with
      | some ('.' :: r2) =>
        match matchNum r2 with
        | some ('+' :: 'k' :: '3' :: 's' :: r3) =>
          match matchNum r3 with
          | some [] => true
          | _ => false
        | _ => false
      | _ => false
    | _ => false
  | _ => false

/-- The tail of the Gardener pattern after `Garden Linux `: `\d+.\d+$` with
an unescaped dot, i.e. a nonempty digit run, one arbitrary character, and a
nonempty digit run to the end; the split point is existential because the
regex engine backtracks. -/
def gardenerTail (r : List Char) : Bool :=
  (List.range r.length).any fun i =>
    decide (1 ≤ i) && (r.take i).all Char.isDigit &&
      decide (i + 1 < r.length) && (r.drop (i + 1)).all Char.isDigit

/-- The anchored pattern `^Garden Linux \d+.\d+$` applied to `OSImage`. -/
def matchGardener (s : String) : Bool :=
  match s.data with
  | 'G' :: 'a' :: 'r' :: 'd' :: 'e' :: 'n' :: ' ' ::
      'L' :: 'i' :: 'n' :: 'u' :: 'x' :: ' ' :: r => gardenerTail r
  | _ => false

/-- The loop body of `DiscoverClusterFlavour`: the first node (in listing
order) whose strings match a pattern decides; per node the GKE pattern is
tried first, then k3d, then Gardener. -/
def flavourOfNodes : List Node → ClusterFlavour
  | [] => .Unknown
  | n :: rest =>
    if matchGKE n.kubeletVersion then .GKE
    else if matchK3d n.kubeletVersion then .k3d
    else if matchGardener n.osImage then .Gardener
    else flavourOfNodes rest

/-- `DiscoverClusterFlavour`: `(Unknown, err)` when the node listing fails,
otherwise the loop above. (The three `regexp.Compile` calls are on constant
patterns and cannot fail.) -/
def DiscoverClusterFlavour (listResult : Except K8sError (List Node)) :
    ClusterFlavour × Option K8sError :=
  match listResult with
  | .error e => (.Unknown, some e)
  | .ok nodes => (flavourOfNodes nodes, none)

/-- Per-node classification following the spec's wording: within a single
node, pattern priority decides (GKE pattern first, then k3d, then
Gardener); `none` when the node matches no pattern. -/
def nodeFlavour (n : Node) : Option ClusterFlavour :=
  if matchGKE n.kubeletVersion then some .GKE
  else if matchK3d n.kubeletVersion then some .k3d
  else if matchGardener n.osImage then some .Gardener
  else none

/-- A node of a k3d cluster, as listed first. -/
def nodeWithK3sVersion : Node :=
  { cpuMilli := none, memBytes := none, kubeletVersion := "v1.2.3+k3s1",
    osImage := "", providerID := "" }

/-- A node of a GKE cluster. -/
def nodeWithGkeVersion : Node :=
  { cpuMilli := none, memBytes := none, kubeletVersion := "v1.2.3-gke.4",
    osImage := "", providerID := "" }

/-- Claim C5, counterexample: the same multiset of nodes — one with a k3d
kubelet version, one with a GKE kubelet version — classifies differently
under the two orderings, so `DiscoverClusterFlavour` is not
order-independent: the first node in listing order to match any pattern
determines the flavour. -/
theorem discoverClusterFlavour_order_dependent :
    [nodeWithGkeVersion, nodeWithK3sVersion].Perm
        [nodeWithK3sVersion, nodeWithGkeVersion] ∧
    DiscoverClusterFlavour (.ok [nodeWithK3sVersion, nodeWithGkeVersion]) =
        (.k3d, none) ∧
    DiscoverClusterFlavour (.ok [nodeWithGkeVersion, nodeWithK3sVersion]) =
        (.GKE, none) ∧
    DiscoverClusterFlavour (.ok [nodeWithK3sVersion, nodeWithGkeVersion]) ≠
        DiscoverClusterFlavour (.ok [nodeWithGkeVersion, nodeWithK3sVersion]) := by
  refine ⟨List.Perm.swap _ _ _, by decide, by decide, by decide⟩

/-- Claim C5, amended: the flavour returned for a successful listing is the
per-node classification of the first node in listing order that matches any
pattern (`Unknown` when no node matches) — hence listing-order-dependent
across nodes — while within a single node pattern priority decides: a node
whose kubelet version matches the first configured pattern (GKE) always
classifies as GKE regardless of the other patterns. -/
theorem discoverClusterFlavour_first_match :
    (∀ nodes : List Node,
      (DiscoverClusterFlavour (.ok nodes)).1 =
        (nodes.findSome? nodeFlavour).getD .Unknown) ∧
    (∀ n : Node, matchGKE n.kubeletVersion = true → nodeFlavour n = some .GKE) := by
  constructor
  · intro nodes
    induction nodes with
    | nil => rfl
    | cons n rest ih =>
      simp only [DiscoverClusterFlavour, flavourOfNodes, List.findSome?,
        nodeFlavour] at *
      split <;> rename_i h1
      · simp [h1]
      · split <;> rename_i h2
        · simp [h1, h2]
        · split <;> rename_i h3
          · simp [h1, h2, h3]
          · simpa [h1, h2, h3] using ih
  · intro n h
    simp [nodeFlavour, h]

/-- Witness for the amended C5 theorem: the GKE-versioned node concretely
classifies as GKE. -/
theorem discoverClusterFlavour_first_match_witness :
    matchGKE nodeWithGkeVersion.kubeletVersion = true ∧
    nodeFlavour nodeWithGkeVersion = some .GKE :=
  ⟨by decide, discoverClusterFlavour_first_match.2 nodeWithGkeVersion (by decide)⟩

/-- Modelled from the spec: the constant `clusterconfig.Aws` is declared in
a file of package `clusterconfig` that is not under src/; the spec's
provider domain is `{aws, openstack, other}` and `GetClusterProvider`
returns the literal `"aws"` for that provider. -/
def Aws : String := "aws"

/-- Modelled from the spec: the constant `clusterconfig.Openstack` is
declared in a file of package `clusterconfig` that is not under src/; the
spec names the secondary recognized provider `openstack`. -/
def Openstack : String := "openstack"

/-- The Istio resource variants built by `getResources`:
`NewPeerAuthenticationMtls(client)` and
`NewProxyProtocolEnvoyFilter(client, shouldUseNLB)`. -/
inductive Resource where
  | peerAuthenticationMtls
  | proxyProtocolEnvoyFilter (shouldUseNLB : Bool)
deriving DecidableEq

/-- `getResources`: the baseline peer-authentication resource, plus a
provider-conditional proxy-protocol filter. The external
`clusterconfig.ShouldUseNLB` inspection (declared outside src/) is embedded
as the explicit argument `shouldUseNLB`, queried only on the aws branch. -/
def getResources (provider : String) (shouldUseNLB : Except K8sError Bool) :
    Except K8sError (List Resource) :=
  let istioResources := [Resource.peerAuthenticationMtls]
  if provider = Aws then
    match shouldUseNLB with
    | .error e => .error e
    | .ok nlb => .ok (istioResources ++ [.proxyProtocolEnvoyFilter nlb])
  else if provider = Openstack then
    .ok (istioResources ++ [.proxyProtocolEnvoyFilter false])
  else
    .ok istioResources

/-- `getResources` with the `clusterconfig.Openstack` case removed from the
switch, so that the openstack provider falls into the default branch; used
to state that the openstack branch is unreachable for providers produced by
`GetClusterProvider`. -/
def getResourcesNoOpenstackBranch (provider : String)
    (shouldUseNLB : Except K8sError Bool) : Except K8sError (List Resource) :=
  let istioResources := [Resource.peerAuthenticationMtls]
  if provider = Aws then
    match shouldUseNLB with
    | .error e => .error e
    | .ok nlb => .ok (istioResources ++ [.proxyProtocolEnvoyFilter nlb])
  else
    .ok istioResources

/-- Claim C3: whenever `getResources` succeeds, the baseline
peer-authentication resource is first; for provider aws the proxy-protocol
filter parametrized by the should-use-NLB signal is appended, for provider
openstack the same filter with NLB forced off is appended, and every other
provider yields only the baseline resource. -/
theorem getResources_shape (provider : String)
    (shouldUseNLB : Except K8sError Bool) (res : List Resource)
    (h : getResources provider shouldUseNLB = .ok res) :
    res.head? = some .peerAuthenticationMtls ∧
    (provider = Aws → ∀ nlb : Bool, shouldUseNLB = .ok nlb →
      res = [.peerAuthenticationMtls, .proxyProtocolEnvoyFilter nlb]) ∧
    (provider = Openstack →
      res = [.peerAuthenticationMtls, .proxyProtocolEnvoyFilter false]) ∧
    (provider ≠ Aws → provider ≠ Openstack →
      res = [.peerAuthenticationMtls]) := by
  by_cases hp : provider = Aws
  · cases shouldUseNLB with
    | error e =>
      rw [getResources, if_pos hp] at h
      exact absurd h (by simp)
    | ok b =>
      rw [getResources, if_pos hp] at h
      simp only [Except.ok.injEq] at h
      subst h
      refine ⟨rfl, fun _ nlb hnlb => ?_, fun ho => ?_, fun ha _ => absurd hp ha⟩
      · simp only [Except.ok.injEq] at hnlb
        subst hnlb
        rfl
      · rw [hp] at ho
        exact absurd ho (by decide)
  · by_cases ho : provider = Openstack
    · rw [getResources.eq_def, if_neg hp, if_pos ho] at h
      simp only [Except.ok.injEq] at h
      subst h
      exact ⟨rfl, fun ha => absurd ha hp, fun _ => rfl,
        fun _ hno => absurd ho hno⟩
    · rw [getResources.eq_def, if_neg hp, if_neg ho] at h
      simp only [Except.ok.injEq] at h
      subst h
      exact ⟨rfl, fun ha => absurd ha hp, fun hos => absurd hos ho,
        fun _ _ => rfl⟩

/-- Witness for C3 at a concrete input: provider aws with the NLB signal
true. -/
theorem getResources_shape_witness :
    getResources Aws (.ok true) =
        .ok [.peerAuthenticationMtls, .proxyProtocolEnvoyFilter true] ∧
    [Resource.peerAuthenticationMtls,
        .proxyProtocolEnvoyFilter true].head? = some .peerAuthenticationMtls ∧
    [Resource.peerAuthenticationMtls, .proxyProtocolEnvoyFilter true] =
        [.peerAuthenticationMtls, .proxyProtocolEnvoyFilter true] :=
  ⟨rfl, (getResources_shape Aws (.ok true) _ rfl).1,
    (getResources_shape Aws (.ok true) _ rfl).2.1 rfl true rfl⟩

/-- Claim C9: a successful `GetClusterProvider` call returns only `"aws"`
or `"other"`, never `Openstack`; consequently `getResources` on such a
provider behaves exactly like the variant without the openstack branch —
that branch is unreachable when the provider comes from
`GetClusterProvider`, as in `ResourcesReconciler.Reconcile`. -/
theorem getClusterProvider_no_openstack
    (listResult : Except K8sError (List Node)) (provider : String)
    (h : GetClusterProvider listResult = .ok provider) :
    (provider = Aws ∨ provider = "other") ∧ provider ≠ Openstack ∧
    ∀ shouldUseNLB : Except K8sError Bool,
      getResources provider shouldUseNLB =
        getResourcesNoOpenstackBranch provider shouldUseNLB := by
  have hp : provider = Aws ∨ provider = "other" := by
    cases listResult with
    | error e =>
      simp only [GetClusterProvider] at h
      exact Except.noConfusion h
    | ok nodes =>
      cases nodes with
      | nil =>
        simp only [GetClusterProvider, Except.ok.injEq] at h
        exact Or.inr h.symm
      | cons n rest =>
        simp only [GetClusterProvider] at h
        split at h <;> simp only [Except.ok.injEq] at h
        · exact Or.inl h.symm
        · exact Or.inr h.symm
  have hno : provider ≠ Openstack := by
    rcases hp with h1 | h1 <;> subst h1 <;> decide
  refine ⟨hp, hno, fun shouldUseNLB => ?_⟩
  simp only [getResources, getResourcesNoOpenstackBranch, if_neg hno]

/-- Witness for C9 at a concrete input: the empty node listing. -/
theorem getClusterProvider_no_openstack_witness :
    ("other" = Aws ∨ "other" = "other") ∧ "other" ≠ Openstack ∧
    ∀ shouldUseNLB : Except K8sError Bool,
      getResources "other" shouldUseNLB =
        getResourcesNoOpenstackBranch "other" shouldUseNLB :=
  getClusterProvider_no_openstack (.ok []) "other" rfl

/-- `describederrors.NewDescribedError(err, description)`: the underlying
cause together with a description. -/
structure DescribedError where
  cause : String
  description : String
deriving DecidableEq

/-- `controllerutil.OperationResult` values relevant here. -/
inductive OperationResult where
  | resultNone
  | created
  | updated
deriving DecidableEq

/-- The `Resource` interface of the `istioresources` package over a cluster
state `σ`: a name and a `reconcile` step that mutates the cluster and
either succeeds with an operation result or fails with an error. -/
structure IstioResource (σ : Type) where
  name : String
  reconcile : σ → σ × Except String OperationResult

/-- The resource loop of `ResourcesReconciler.Reconcile`: reconcile each
resource in order; on the first error stop and return the described error
`"Could not reconcile Istio resource <name>"` with the underlying cause,
leaving the cluster state as the failing step left it. -/
def reconcileAll {σ : Type} : List (IstioResource σ) → σ → σ × Option DescribedError
  | [], s => (s, none)
  | r :: rest, s =>
    match r.reconcile s with
    | (s', .error e) =>
      (s', some ⟨e, "Could not reconcile Istio resource " ++ r.name⟩)
    | (s', .ok _) => reconcileAll rest s'

/-- `ResourcesReconciler.Reconcile`: determine the provider, build the
resource list, then run the loop; `interp` supplies each built resource's
name and reconcile behaviour (defined in files outside src/). -/
def Reconcile {σ : Type} (listResult : Except K8sError (List Node))
    (shouldUseNLB : Except K8sError Bool) (interp : Resource → IstioResource σ)
    (s : σ) : σ × Option DescribedError :=
  match GetClusterProvider listResult with
  | .error e => (s, some ⟨e.msg, "could not determine cluster provider"⟩)
  | .ok provider =>
    match getResources provider shouldUseNLB with
    | .error e =>
      (s, some ⟨e.msg, "Istio controller failed to initialise Istio resources"⟩)
    | .ok resources => reconcileAll (resources.map interp) s

/-- Claim C1: if every resource before `r` succeeds and `r`'s reconcile
step fails with cause `e`, the loop stops at `r` and returns the single
described error naming exactly `r` with cause `e`; the resources after `r`
are never attempted (the result does not depend on `post`), and the cluster
state keeps the effects of the resources applied before the failure (no
rollback). -/
theorem reconcileAll_fail_fast {σ : Type} (pre : List (IstioResource σ))
    (r : IstioResource σ) (post : List (IstioResource σ)) (s : σ)
    (hpre : (reconcileAll pre s).2 = none)
    (e : String) (sFail : σ)
    (hfail : r.reconcile (reconcileAll pre s).1 = (sFail, .error e)) :
    reconcileAll (pre ++ r :: post) s =
      (sFail, some ⟨e, "Could not reconcile Istio resource " ++ r.name⟩) := by
  induction pre generalizing s with
  | nil =>
    simp only [reconcileAll, List.nil_append] at *
    rw [hfail]
  | cons p rest ih =>
    simp only [reconcileAll, List.cons_append] at *
    rcases hstep : p.reconcile s with ⟨s', res⟩
    rw [hstep] at hpre hfail
    cases res with
    | error err => simp at hpre
    | ok op => exact ih s' hpre hfail

/-- Witness for C1: three concrete resources over a log state; the first
appends its name, the second fails, the third would append but is never
reached — the result keeps the first resource's effect and names the
second. -/
theorem reconcileAll_fail_fast_witness :
    (reconcileAll [⟨"first", fun s => (s ++ ["first"], .ok .created)⟩]
        ([] : List String)).2 = none ∧
    reconcileAll
        [⟨"first", fun s => (s ++ ["first"], .ok .created)⟩,
         ⟨"second", fun s => (s, .error "boom")⟩,
         ⟨"third", fun s => (s ++ ["third"], .ok .created)⟩]
        ([] : List String) =
      (["first"], some ⟨"boom", "Could not reconcile Istio resource second"⟩) :=
  ⟨rfl,
    reconcileAll_fail_fast
      [⟨"first", fun s => (s ++ ["first"], .ok .created)⟩]
      ⟨"second", fun s => (s, .error "boom")⟩
      [⟨"third", fun s => (s ++ ["third"], .ok .created)⟩]
      [] rfl "boom" ["first"] rfl⟩

/-- The coarse status surfaced on the Istio custom resource. -/
inductive ReconciliationStatus where
  | Processing
  | Ready
  | Error
  | Warning
deriving DecidableEq

/-- Restarts workloads strictly in sequence, stopping at the first failing
restart and returning its error. -/
def restartSequentially (restart : String → Option K8sError) :
    List String → Option K8sError
  | [] => none
  | w :: ws =>
    match restart w with
    | some e => some e
    | none => restartSequentially restart ws

/-- Partitions a workload list into chunks of `k` (a chunk of at least one
workload per step, so the function is total even for `k ≤ 1`). -/
def chunksOf (k : Nat) : List String → List (List String)
  | [] => []
  | w :: ws =>
    if k ≤ 1 then [w] :: chunksOf k ws
    else (w :: ws.take (k - 1)) :: chunksOf k (ws.drop (k - 1))
termination_by l => l.length
decreasing_by
  · simp
  · simp only [List.length_cons, List.length_drop]
    omega

/-- Modelled from the spec: the two-phase sidecar-restart orchestrator
(spec §4.5) is not under src/ — only its release notes are. Phase 1
enumerates and restarts platform/Kyma workloads sequentially; if
enumeration or any restart fails the run ends with
`ReconciliationStatus.Error` and stops. Phase 2 is entered only when phase
1 fully succeeds: customer workloads are partitioned into chunks processed
strictly in sequence, every workload gets a restart call, per-workload
failures are collected without aborting, and the run ends `Ready` when no
failures occurred, else `Warning`. Returns the final status, the list of
customer restart calls issued, and the failed customer workloads. -/
def runSidecarRestart (platformWorkloads : Except K8sError (List String))
    (restartPlatform : String → Option K8sError)
    (customerWorkloads : List String)
    (restartCustomer : String → Option K8sError) (chunkSize : Nat) :
    ReconciliationStatus × List String × List String :=
  match platformWorkloads with
  | .error _ => (.Error, [], [])
  | .ok pws =>
    match restartSequentially restartPlatform pws with
    | some _ => (.Error, [], [])
    | none =>
      let chunks := chunksOf chunkSize customerWorkloads
      let issued := chunks.foldl (fun acc c => acc ++ c) []
      let failures := issued.filter fun w => (restartCustomer w).isSome
      (if failures.isEmpty then .Ready else .Warning, issued, failures)

/-- `true` exactly when phase 1 of a restart run fails: the platform
workload enumeration errored, or some platform restart errored. -/
def phase1Failed (platformWorkloads : Except K8sError (List String))
    (restartPlatform : String → Option K8sError) : Bool :=
  match platformWorkloads with
  | .error _ => true
  | .ok pws => (restartSequentially restartPlatform pws).isSome

/-- Claim C2: if phase 1 of a sidecar-restart run fails — enumeration or
any individual platform restart — the run ends with
`ReconciliationStatus.Error` and no restart call is ever issued for
customer (phase-2) workloads. -/
theorem phase1_failure_blocks_customer_restarts
    (platformWorkloads : Except K8sError (List String))
    (restartPlatform : String → Option K8sError)
    (customerWorkloads : List String)
    (restartCustomer : String → Option K8sError) (chunkSize : Nat)
    (h : phase1Failed platformWorkloads restartPlatform = true) :
    runSidecarRestart platformWorkloads restartPlatform customerWorkloads
        restartCustomer chunkSize = (.Error, [], []) := by
  cases platformWorkloads with
  | error e => rfl
  | ok pws =>
    simp only [phase1Failed, Option.isSome_iff_exists] at h
    obtain ⟨e, he⟩ := h
    simp only [runSidecarRestart, he]

/-- Witness for C2: a run whose second platform restart fails ends in
`Error` with zero customer restart calls, although customer workloads were
enumerated. -/
theorem phase1_failure_blocks_customer_restarts_witness :
    phase1Failed (.ok ["istiod", "ingress"])
        (fun w => if w = "ingress" then some ⟨"restart failed"⟩ else none) = true ∧
    runSidecarRestart (.ok ["istiod", "ingress"])
        (fun w => if w = "ingress" then some ⟨"restart failed"⟩ else none)
        ["app1", "app2", "app3"] (fun _ => none) 2 = (.Error, [], []) :=
  ⟨rfl,
    phase1_failure_blocks_customer_restarts (.ok ["istiod", "ingress"])
      (fun w => if w = "ingress" then some ⟨"restart failed"⟩ else none)
      ["app1", "app2", "app3"] (fun _ => none) 2 rfl⟩

/-- A YAML/JSON document value as produced by unmarshalling into
`map[string]interface{}`: scalars, arrays, and string-keyed objects. -/
inductive YamlVal where
  | null
  | boolean (v : Bool)
  | num (v : Int)
  | str (v : String)
  | arr (items : List YamlVal)
  | obj (fields : List (String × YamlVal))

mutual

/-- `mergo.Merge(&dst, src, mergo.WithOverride)` on documents: the external
mergo library (a dependency, not repository code) merges override-wins at
every depth — two objects merge field-wise recursively, and in every other
case the override (src) value replaces the template (dst) value. -/
def mergeVal : YamlVal → YamlVal → YamlVal
  | .obj dm, .obj sm => .obj (mergeInto dm sm)
  | _, s => s
termination_by d s => (sizeOf s, 0)
decreasing_by
  all_goals decreasing_tactic

/-- Folds the override fields, in order, into the template fields. -/
def mergeInto (dm : List (String × YamlVal)) :
    List (String × YamlVal) → List (String × YamlVal)
  | [] => dm
  | (k, sv) :: rest => mergeInto (setKey dm k sv) rest
termination_by sm => (sizeOf sm, 0)
decreasing_by
  all_goals decreasing_tactic

/-- Merges one override field into the template fields: the first binding
of `k` is replaced by the merge of its value with `sv`; a missing key is
appended. -/
def setKey : List (String × YamlVal) → String → YamlVal → List (String × YamlVal)
  | [], k, sv => [(k, sv)]
  | (k', dv) :: t, k, sv =>
    if k' = k then (k', mergeVal dv sv) :: t else (k', dv) :: setKey t k sv
termination_by m k sv => (sizeOf sv, 1 + sizeOf m)
decreasing_by
  all_goals decreasing_tactic

end

/-- `ClusterConfiguration`: a `map[string]interface{}` of overrides. -/
abbrev ClusterConfiguration : Type := List (String × YamlVal)

/-- `MergeOverrides(template, overrides)`: the template bytes are
unmarshalled into a document, the overrides are merged override-wins, and
the result is marshalled back. The YAML codec (`sigs.k8s.io/yaml`, an
external dependency) is a faithful document round-trip, so the function is
embedded on already-parsed documents. -/
def MergeOverrides (templateMap : List (String × YamlVal))
    (overrides : ClusterConfiguration) : List (String × YamlVal) :=
  mergeInto templateMap overrides

/-- `ClusterFlavour.clusterConfiguration()`: the static per-flavour
override table. -/
def clusterConfiguration : ClusterFlavour → ClusterConfiguration
  | .k3d =>
    [("spec", .obj
      [("values", .obj
        [("cni", .obj
          [("cniBinDir", .str "/bin"),
           ("cniConfDir", .str "/var/lib/rancher/k3s/agent/etc/cni/net.d")])])])]
  | .GKE =>
    [("spec", .obj
      [("values", .obj
        [("cni", .obj
          [("cniBinDir", .str "/home/kubernetes/bin"),
           ("resourceQuotas", .obj [("enabled", .boolean true)])])])])]
  | .Gardener => []
  | .Unknown => []

/-- `true` when the fields list binds the key `k`. -/
def hasKey (m : List (String × YamlVal)) (k : String) : Bool :=
  m.any fun p => p.1 = k

/-- The first binding of `k` in a fields list. -/
def lookupKey : List (String × YamlVal) → String → Option YamlVal
  | [], _ => none
  | (k', v) :: t, k => if k' = k then some v else lookupKey t k

mutual

/-- Well-formedness of a document: every object level binds each key at
most once — the invariant Go's `map[string]interface{}` guarantees by
construction. -/
def wfVal : YamlVal → Bool
  | .obj m => wfFields m
  | _ => true

/-- Well-formedness of an object's fields list. -/
def wfFields : List (String × YamlVal) → Bool
  | [] => true
  | (k, v) :: t => !(hasKey t k) && wfVal v && wfFields t

end

theorem lookupKey_setKey_same (m : List (String × YamlVal)) (k : String)
    (sv : YamlVal) :
    lookupKey (setKey m k sv) k =
      some (match lookupKey m k with
            | some dv => mergeVal dv sv
            | none => sv) := by
  induction m with
  | nil => simp [setKey, lookupKey]
  | cons p t ih =>
    rcases p with ⟨k', dv⟩
    by_cases h : k' = k
    · simp [setKey, lookupKey, h]
    · simp [setKey, lookupKey, h, ih]

theorem lookupKey_setKey_other (m : List (String × YamlVal)) (k2 k : String)
    (v : YamlVal) (h : k2 ≠ k) :
    lookupKey (setKey m k2 v) k = lookupKey m k := by
  induction m with
  | nil => simp [setKey, lookupKey, h]
  | cons p t ih =>
    rcases p with ⟨k', dv⟩
    by_cases hk : k' = k2
    · subst hk
      simp [setKey, lookupKey, h]
    · by_cases hkk : k' = k <;> simp [setKey, lookupKey, hk, hkk, Ne.symm h, ih]

theorem lookupKey_mergeInto_notin (l : List (String × YamlVal))
    (d : List (String × YamlVal)) (k : String) (h : hasKey l k = false) :
    lookupKey (mergeInto d l) k = lookupKey d k := by
  induction l generalizing d with
  | nil => simp [mergeInto]
  | cons p rest ih =>
    rcases p with ⟨k2, sv⟩
    simp only [hasKey, List.any_cons, Bool.or_eq_false_iff] at h
    obtain ⟨h1, h2⟩ := h
    simp only [mergeInto]
    rw [ih _ h2]
    exact lookupKey_setKey_other d k2 k sv (by simpa using h1)

theorem setKey_unchanged (m : List (String × YamlVal)) (k : String)
    (sv dv : YamlVal) (hl : lookupKey m k = some dv)
    (hm : mergeVal dv sv = dv) : setKey m k sv = m := by
  induction m with
  | nil => simp [lookupKey] at hl
  | cons p t ih =>
    rcases p with ⟨k', v'⟩
    by_cases h : k' = k
    · subst h
      simp [lookupKey] at hl
      subst hl
      simp [setKey, hm]
    · simp only [lookupKey, if_neg h] at hl
      simp [setKey, h, ih hl]

theorem sizeOf_snd_lt_of_mem {m : List (String × YamlVal)} {k : String}
    {sv : YamlVal} (h : (k, sv) ∈ m) : sizeOf sv < sizeOf m := by
  induction m with
  | nil => cases h
  | cons p t ih =>
    rcases List.mem_cons.mp h with h1 | h1
    · subst h1
      simp only [List.cons.sizeOf_spec, Prod.mk.sizeOf_spec]
      omega
    · have := ih h1
      simp only [List.cons.sizeOf_spec]
      omega

theorem wfFields_cons {k : String} {v : YamlVal} {t : List (String × YamlVal)}
    (h : wfFields ((k, v) :: t) = true) :
    hasKey t k = false ∧ wfVal v = true ∧ wfFields t = true := by
  simp only [wfFields, Bool.and_eq_true, Bool.not_eq_true'] at h
  exact ⟨h.1.1, h.1.2, h.2⟩

theorem hasKey_of_mem {m : List (String × YamlVal)} {k : String} {sv : YamlVal}
    (h : (k, sv) ∈ m) : hasKey m k = true := by
  simp only [hasKey, List.any_eq_true]
  exact ⟨(k, sv), h, by simp⟩

theorem lookupKey_of_mem_wf {m : List (String × YamlVal)} {k : String}
    {sv : YamlVal} (hwf : wfFields m = true) (h : (k, sv) ∈ m) :
    lookupKey m k = some sv := by
  induction m with
  | nil => cases h
  | cons p t ih =>
    rcases p with ⟨k', v'⟩
    obtain ⟨hk, _, ht⟩ := wfFields_cons hwf
    rcases List.mem_cons.mp h with h1 | h1
    · rw [Prod.mk.injEq] at h1
      obtain ⟨h1a, h1b⟩ := h1
      subst h1a
      subst h1b
      simp [lookupKey]
    · by_cases hkk : k' = k
      · subst hkk
        rw [hasKey_of_mem h1] at hk
        exact absurd hk (by simp)
      · simpa [lookupKey, hkk] using ih ht h1

theorem wfVal_of_mem {m : List (String × YamlVal)} {k : String} {sv : YamlVal}
    (hwf : wfFields m = true) (h : (k, sv) ∈ m) : wfVal sv = true := by
  induction m with
  | nil => cases h
  | cons p t ih =>
    rcases p with ⟨k', v'⟩
    obtain ⟨_, hv, ht⟩ := wfFields_cons hwf
    rcases List.mem_cons.mp h with h1 | h1
    · cases h1
      exact hv
    · exact ih ht h1

theorem mergeInto_fixed (l : List (String × YamlVal))
    (m : List (String × YamlVal))
    (h : ∀ k sv, (k, sv) ∈ l → lookupKey m k = some sv ∧ mergeVal sv sv = sv) :
    mergeInto m l = m := by
  induction l with
  | nil => simp only [mergeInto]
  | cons p rest ih =>
    rcases p with ⟨k, sv⟩
    obtain ⟨hl, hm⟩ := h k sv (List.mem_cons_self _ _)
    simp only [mergeInto]
    rw [setKey_unchanged m k sv sv hl hm]
    exact ih fun k' sv' hmem => h k' sv' (List.mem_cons_of_mem _ hmem)

theorem merge_self_aux : ∀ n : Nat,
    (∀ s : YamlVal, sizeOf s ≤ n → wfVal s = true → mergeVal s s = s) ∧
    (∀ m : List (String × YamlVal), sizeOf m ≤ n → wfFields m = true →
      mergeInto m m = m) := by
  intro n
  induction n with
  | zero =>
    constructor
    · intro s hs
      exact absurd hs (by cases s <;> simp)
    · intro m hm
      exact absurd hm (by cases m <;> simp)
  | succ n ih =>
    constructor
    · intro s hs hwf
      cases s with
      | obj m =>
        have hm : sizeOf m ≤ n := by
          simp only [YamlVal.obj.sizeOf_spec] at hs
          omega
        simp only [mergeVal]
        rw [ih.2 m hm (by simpa [wfVal] using hwf)]
      | null => simp [mergeVal]
      | boolean v => simp [mergeVal]
      | num v => simp [mergeVal]
      | str v => simp [mergeVal]
      | arr l => simp [mergeVal]
    · intro m hm hwf
      apply mergeInto_fixed
      intro k sv hmem
      refine ⟨lookupKey_of_mem_wf hwf hmem, ?_⟩
      have hsz : sizeOf sv < sizeOf m := sizeOf_snd_lt_of_mem hmem
      exact ih.1 sv (by omega) (wfVal_of_mem hwf hmem)

theorem merge_idem_aux : ∀ n : Nat,
    (∀ s : YamlVal, sizeOf s ≤ n → wfVal s = true →
      ∀ d, mergeVal (mergeVal d s) s = mergeVal d s) ∧
    (∀ sm : List (String × YamlVal), sizeOf sm ≤ n → wfFields sm = true →
      ∀ dm, mergeInto (mergeInto dm sm) sm = mergeInto dm sm) := by
  intro n
  induction n with
  | zero =>
    constructor
    · intro s hs
      exact absurd hs (by cases s <;> simp)
    · intro sm hm
      exact absurd hm (by cases sm <;> simp)
  | succ n ih =>
    constructor
    · intro s hs hwf d
      cases s with
      | obj sm =>
        have hsm : sizeOf sm ≤ n := by
          simp only [YamlVal.obj.sizeOf_spec] at hs
          omega
        have hwfm : wfFields sm = true := by simpa [wfVal] using hwf
        cases d with
        | obj dm =>
          simp only [mergeVal]
          rw [ih.2 sm hsm hwfm dm]
        | null =>
          simp only [mergeVal]
          rw [(merge_self_aux (sizeOf sm)).2 sm le_rfl hwfm]
        | boolean v =>
          simp only [mergeVal]
          rw [(merge_self_aux (sizeOf sm)).2 sm le_rfl hwfm]
        | num v =>
          simp only [mergeVal]
          rw [(merge_self_aux (sizeOf sm)).2 sm le_rfl hwfm]
        | str v =>
          simp only [mergeVal]
          rw [(merge_self_aux (sizeOf sm)).2 sm le_rfl hwfm]
        | arr l =>
          simp only [mergeVal]
          rw [(merge_self_aux (sizeOf sm)).2 sm le_rfl hwfm]
      | null => cases d <;> simp [mergeVal]
      | boolean v => cases d <;> simp [mergeVal]
      | num v => cases d <;> simp [mergeVal]
      | str v => cases d <;> simp [mergeVal]
      | arr l => cases d <;> simp [mergeVal]
    · intro sm hsm hwf dm
      cases sm with
      | nil => simp only [mergeInto]
      | cons p rest =>
        rcases p with ⟨k, sv⟩
        obtain ⟨hk, hv, ht⟩ := wfFields_cons hwf
        have hszv : sizeOf sv ≤ n := by
          simp only [List.cons.sizeOf_spec, Prod.mk.sizeOf_spec] at hsm
          omega
        have hszr : sizeOf rest ≤ n := by
          simp only [List.cons.sizeOf_spec, Prod.mk.sizeOf_spec] at hsm
          omega
        have hRk : lookupKey (mergeInto (setKey dm k sv) rest) k =
            lookupKey (setKey dm k sv) k :=
          lookupKey_mergeInto_notin rest _ k hk
        have hSame := lookupKey_setKey_same dm k sv
        have hstable :
            mergeVal (match lookupKey dm k with
                      | some dv => mergeVal dv sv
                      | none => sv) sv =
              (match lookupKey dm k with
               | some dv => mergeVal dv sv
               | none => sv) := by
          cases hdk : lookupKey dm k with
          | none =>
            simpa using (merge_self_aux (sizeOf sv)).1 sv le_rfl hv
          | some dv =>
            simpa using ih.1 sv hszv hv dv
        have hset : setKey (mergeInto (setKey dm k sv) rest) k sv =
            mergeInto (setKey dm k sv) rest :=
          setKey_unchanged _ k sv _ (by rw [hRk, hSame]) hstable
        simp only [mergeInto]
        rw [hset]
        exact ih.2 rest hszr ht (setKey dm k sv)

/-- Claim C6: `MergeOverrides` is idempotent — merging the already-merged
document with the same overrides again yields the same document. The
hypothesis is the `map[string]interface{}` invariant that each object level
of the overrides binds every key at most once. -/
theorem mergeOverrides_idempotent (templateMap : List (String × YamlVal))
    (overrides : ClusterConfiguration) (hwf : wfFields overrides = true) :
    MergeOverrides (MergeOverrides templateMap overrides) overrides =
      MergeOverrides templateMap overrides :=
  (merge_idem_aux (sizeOf overrides)).2 overrides le_rfl hwf templateMap

/-- Witness for C6: the k3d override table merged twice into a template
that carries a conflicting scalar at `spec`. -/
theorem mergeOverrides_idempotent_witness :
    wfFields (clusterConfiguration .k3d) = true ∧
    MergeOverrides
        (MergeOverrides [("spec", .str "base"), ("note", .num 3)]
          (clusterConfiguration .k3d))
        (clusterConfiguration .k3d) =
      MergeOverrides [("spec", .str "base"), ("note", .num 3)]
        (clusterConfiguration .k3d) :=
  ⟨by simp [clusterConfiguration, wfFields, wfVal, hasKey],
    mergeOverrides_idempotent [("spec", .str "base"), ("note", .num 3)]
      (clusterConfiguration .k3d)
      (by simp [clusterConfiguration, wfFields, wfVal, hasKey])⟩

/-- Claim C8: `MergeOverrides` is deterministic and pure — it is a function
of its two arguments alone (the embedding of the Go function does no I/O),
so two calls on the same template document and the same overrides document
yield identical output. -/
theorem mergeOverrides_deterministic (t1 t2 : List (String × YamlVal))
    (o1 o2 : ClusterConfiguration) (ht : t1 = t2) (ho : o1 = o2) :
    MergeOverrides t1 o1 = MergeOverrides t2 o2 := by
  rw [ht, ho]

/-- Witness for C8: two calls on the GKE override table. -/
theorem mergeOverrides_deterministic_witness :
    MergeOverrides [("spec", .null)] (clusterConfiguration .GKE) =
      MergeOverrides [("spec", .null)] (clusterConfiguration .GKE) :=
  mergeOverrides_deterministic [("spec", .null)] [("spec", .null)]
    (clusterConfiguration .GKE) (clusterConfiguration .GKE) rfl rfl

end IstioOperator
